import Mathlib

/-!
Verification of the gate/layer construction fragment of `tensorcircuit`
(`tensorcircuit/gates.py` and `tensorcircuit/applications/layers.py`).

The circuit object is external to this fragment (`tensorcircuit/circuit.py` is
not part of it); we model it as a trace recorder: each gate-application method
appends one operation to the circuit's operation list.  Angles are idealized as
real numbers.
-/

/-- One gate-application call on the external circuit handle:
a fixed gate applied by name to one qubit (`circuit.H(q)` /
`getattr(circuit, name)(q)`), a parametrized rotation applied by name with a
`theta` keyword (`circuit.rx(q, theta=...)`), or a CNOT on a qubit pair. -/
inductive Op : Type where
  | fixed (name : String) (q : ℕ)
  | rot (name : String) (q : ℕ) (theta : ℝ)
  | cnot (q1 q2 : ℕ)

/-- Modelled from the spec: the external `CircuitHandle` ("an object exposing
qubit count and named methods to apply a gate to given qubit indices with an
optional rotation parameter").  `nqubits` is `circuit._nqubits`; `ops` is the
trace of gate-application calls made so far, in order. -/
structure Circuit : Type where
  nqubits : ℕ
  ops : List Op

/-- Modelled from the spec: a generic fixed-gate method call
`getattr(circuit, name)(q)` on the external circuit handle. -/
def Circuit.applyFixed (c : Circuit) (name : String) (q : ℕ) : Circuit :=
  { c with ops := c.ops ++ [Op.fixed name q] }

/-- Modelled from the spec: a generic parametrized-gate method call
`getattr(circuit, name)(q, theta=t)` on the external circuit handle. -/
def Circuit.applyRot (c : Circuit) (name : String) (q : ℕ) (theta : ℝ) : Circuit :=
  { c with ops := c.ops ++ [Op.rot name q theta] }

/-- Method `circuit.H(q)`. -/
def Circuit.H (c : Circuit) (q : ℕ) : Circuit := c.applyFixed "H" q

/-- Method `circuit.rx(q, theta=t)`. -/
def Circuit.rx (c : Circuit) (q : ℕ) (theta : ℝ) : Circuit := c.applyRot "rx" q theta

/-- Method `circuit.rz(q, theta=t)`. -/
def Circuit.rz (c : Circuit) (q : ℕ) (theta : ℝ) : Circuit := c.applyRot "rz" q theta

/-- Method `circuit.CNOT(q1, q2)`. -/
def Circuit.CNOT (c : Circuit) (q1 q2 : ℕ) : Circuit :=
  { c with ops := c.ops ++ [Op.cnot q1 q2] }

/-- The two-qubit gate applier produced by `generate_double_gate(gates)`
(`layers.py` lines 19-47), applied to its arguments: `d1, d2 = gates[0],
gates[1]`; basis change on `qubit1` per `d1` (`H` for `"x"`, `rx(-pi/2)` for
`"y"`, nothing otherwise), likewise on `qubit2` per `d2`; `CNOT(qubit1,
qubit2)`; `rz(qubit2, theta=symbol)`; `CNOT(qubit1, qubit2)`; then the inverse
basis changes (`H` / `rx(+pi/2)`) on `qubit1` then `qubit2`. -/
noncomputable def generate_double_gate (gates : String) (circuit : Circuit)
    (qubit1 qubit2 : ℕ) (symbol : ℝ) : Circuit :=
  let d1 := gates.toList.getD 0 ' '
  let d2 := gates.toList.getD 1 ' '
  let c1 := if d1 = 'x' then circuit.H qubit1
    else if d1 = 'y' then circuit.rx qubit1 (-Real.pi / 2) else circuit
  let c2 := if d2 = 'x' then c1.H qubit2
    else if d2 = 'y' then c1.rx qubit2 (-Real.pi / 2) else c1
  let c3 := ((c2.CNOT qubit1 qubit2).rz qubit2 symbol).CNOT qubit1 qubit2
  let c4 := if d1 = 'x' then c3.H qubit1
    else if d1 = 'y' then c3.rx qubit1 (Real.pi / 2) else c3
  let c5 := if d2 = 'x' then c4.H qubit2
    else if d2 = 'y' then c4.rx qubit2 (Real.pi / 2) else c4
  c5

/-- The operations emitted by one invocation of the `generate_double_gate`
applier, i.e. its trace on an empty circuit. -/
noncomputable def doubleGateOps (gates : String) (qubit1 qubit2 : ℕ) (symbol : ℝ) : List Op :=
  (generate_double_gate gates { nqubits := 0, ops := [] } qubit1 qubit2 symbol).ops

/-- Basis change prescribed by the spec for one label: Hadamard for `"x"`,
`rx(-pi/2)` for `"y"`, nothing for `"z"`.  (Spec-side definition, to be
compared with the behaviour of `generate_double_gate`.) -/
noncomputable def specBasisChange (d : Char) (q : ℕ) : List Op :=
  if d = 'x' then [Op.fixed "H" q]
  else if d = 'y' then [Op.rot "rx" q (-Real.pi / 2)]
  else []

/-- Inverse basis change prescribed by the spec: Hadamard for `"x"`,
`rx(+pi/2)` for `"y"`, nothing for `"z"`. -/
noncomputable def specBasisChangeInv (d : Char) (q : ℕ) : List Op :=
  if d = 'x' then [Op.fixed "H" q]
  else if d = 'y' then [Op.rot "rx" q (Real.pi / 2)]
  else []

/-- Python's `str.lower()` on a gate name: lowercase each character.  (Gate
names in this fragment are ASCII, where this agrees with Python.) -/
def pyLower (s : String) : String := String.mk (s.toList.map Char.toLower)

/-- Modelled from the spec: `Circuit.sgates`, the class attribute of the
external circuit object listing the names of the fixed (non-parametrized)
gates.  The spec's contract is that the gate name `"H"` denotes a fixed gate
both when the layer applies it (the code tests the lowercased name) and when
the trainability flag is computed (the code tests the name verbatim), so the
modelled list contains the fixed gate names in both spellings used by this
fragment. -/
def Circuit.sgates : List String :=
  ["i", "x", "y", "z", "h", "H", "cnot", "cz", "swap"]

/-- The single-qubit layer produced by `generate_gate_layer(gate)`
(`layers.py` lines 50-72), applied to its arguments: if `gate.lower()` is in
`Circuit.sgates`, apply the gate by name to every qubit `0..nqubits-1` with no
parameter; otherwise apply it to every qubit with `theta = 2 * symbol`. -/
noncomputable def generate_gate_layer (gate : String) (circuit : Circuit) (symbol : ℝ) :
    Circuit :=
  if pyLower gate ∈ Circuit.sgates then
    (List.range circuit.nqubits).foldl (fun c n => c.applyFixed gate n) circuit
  else
    (List.range circuit.nqubits).foldl (fun c n => c.applyRot gate n (2 * symbol)) circuit

/-- Flag `__trainable__` flag attached by `generate_gate_layer(gate)`
(`layers.py` line 70): `False if gate in Circuit.sgates else True`.
Note the membership test uses `gate` verbatim, not `gate.lower()`. -/
def generate_gate_layer_trainable (gate : String) : Bool :=
  if gate ∈ Circuit.sgates then false else true

/-- Modelled from the spec: the external `InteractionGraph` ("a graph whose
nodes are qubit indices and whose edges carry an optional scalar `weight`
attribute"): an edge list in traversal order plus the optional weight
attribute of each pair. -/
structure Graph : Type where
  edges : List (ℕ × ℕ)
  weight : ℕ → ℕ → Option ℝ

/-- Modelled from the spec: `nx.complete_graph(n)` — every pair `(i, j)` with
`i < j < n`, in lexicographic order, with no weight attribute on any edge. -/
def complete_graph (n : ℕ) : Graph :=
  { edges :=
      (List.range n).flatMap fun i =>
        ((List.range n).filter fun j => i < j).map fun j => (i, j),
    weight := fun _ _ => none }

/-- The two-qubit layer produced by `generate_double_gate_layer(gates)`
(`layers.py` lines 75-89), applied to its arguments: if no graph is given use
the complete graph on the circuit's qubits; for each edge `(u, v)` invoke the
`gates` double-gate applier with angle
`-symbol * g[u][v].get("weight", 1.0) * 2`. -/
noncomputable def generate_double_gate_layer (gates : String) (circuit : Circuit)
    (symbol : ℝ) (g : Option Graph) : Circuit :=
  let g2 := match g with
    | none => complete_graph circuit.nqubits
    | some gr => gr
  g2.edges.foldl
    (fun c e =>
      generate_double_gate gates c e.1 e.2
        (-symbol * ((g2.weight e.1 e.2).getD 1) * 2))
    circuit

/-- Flag `__trainable__` flag attached by `generate_double_gate_layer`
(`layers.py` line 87): always `True`. -/
def generate_double_gate_layer_trainable (_gates : String) : Bool := true

/-- Function `set_choice(l=None)` (`layers.py` lines 103-113): the value assigned to the
process-wide global `_cset`.  A falsy argument (`None` or the empty list)
resets to `[Hlayer, rxlayer, rzlayer, zzlayer]`; a non-empty list is installed
verbatim.  Layer functions are identified by their registered names. -/
def set_choice (l : Option (List String)) : List String :=
  match l with
  | none => ["Hlayer", "rxlayer", "rzlayer", "zzlayer"]
  | some [] => ["Hlayer", "rxlayer", "rzlayer", "zzlayer"]
  | some (x :: xs) => x :: xs

/-- Function `get_choice()` (`layers.py` lines 119-120): returns the current value of
the global `_cset`. -/
def get_choice (cset : List String) : List String := cset

/-- The state of the process-wide `np.random` source, abstracted to what the
seeding claims need: either it was last deterministically seeded with a known
seed, or it is in some other (unknown) state. -/
inductive NpRandomState : Type where
  | seededWith (s : ℤ)
  | arbitrary (id : ℕ)
deriving DecidableEq

/-- Call `np.random.seed(s)`: deterministically re-seeds the global source. -/
def np_random_seed (s : ℤ) (_st : NpRandomState) : NpRandomState :=
  NpRandomState.seededWith s

/-- The seeding phase of `rgate` (`gates.py` lines 84-88), i.e. the state
transition applied to the global `np.random` source before `np.random.rand(3)`
is called: `if seed: np.random.seed(seed)`.  Python truthiness: `None` and `0`
are falsy, every other integer is truthy. -/
def rgate_seed_step (seed : Option ℤ) (st : NpRandomState) : NpRandomState :=
  match seed with
  | none => st
  | some s => if s ≠ 0 then np_random_seed s st else st

/-- The seeding phase of `random_two_qubit_gate` (`gates.py` lines 110-112),
applied before `unitary_group.rvs(dim=4)` draws: `if seed: np.random.seed(seed)`. -/
def random_two_qubit_gate_seed_step (seed : Option ℤ) (st : NpRandomState) :
    NpRandomState :=
  match seed with
  | none => st
  | some s => if s ≠ 0 then np_random_seed s st else st

/-- Matrix `_x_matrix` (`gates.py`): the Pauli X matrix. -/
noncomputable def _x_matrix : Matrix (Fin 2) (Fin 2) ℂ := !![0, 1; 1, 0]

/-- Matrix `_y_matrix` (`gates.py`): the Pauli Y matrix. -/
noncomputable def _y_matrix : Matrix (Fin 2) (Fin 2) ℂ := !![0, -Complex.I; Complex.I, 0]

/-- Matrix `_z_matrix` (`gates.py`): the Pauli Z matrix. -/
noncomputable def _z_matrix : Matrix (Fin 2) (Fin 2) ℂ := !![1, 0; 0, -1]

/-- A `tensornetwork` node as this fragment produces it for a single-qubit
gate: the wrapped matrix plus an optional name. -/
structure TNNode : Type where
  tensor : Matrix (Fin 2) (Fin 2) ℂ
  name : Option String

/-- Function `rgate` (`gates.py` lines 76-98), with the three raw uniform draws of
`np.random.rand(3)` made explicit as inputs `u1 u2 u3 ∈ [0,1)`:
`theta, alpha, phi = np.random.rand(3) * 2 * np.pi`; `mx = sin(alpha)cos(phi)`,
`my = sin(alpha)sin(phi)`, `mz = cos(alpha)`; `theta *= angle_scale`; and
`expm(-1j * theta * (mx * _x_matrix + my * _y_matrix * mz * _z_matrix))`
wrapped as an unnamed node.  NumPy `*` between two matrices is the elementwise
(Hadamard) product; between a scalar and a matrix it is scalar multiplication,
evaluated left to right, so the second summand is
`((my • Y) * mz) ⊙ Z = (mz • my • Y) ⊙ Z`. -/
noncomputable def rgate (u1 u2 u3 : ℝ) (angle_scale : ℝ) : TNNode :=
  let theta := u1 * (2 * Real.pi)
  let alpha := u2 * (2 * Real.pi)
  let phi := u3 * (2 * Real.pi)
  let mx := Real.sin alpha * Real.cos phi
  let my := Real.sin alpha * Real.sin phi
  let mz := Real.cos alpha
  let theta2 := theta * angle_scale
  let unitary := NormedSpace.exp ℂ
    ((-Complex.I * (theta2 : ℂ)) •
      ((mx : ℂ) • _x_matrix +
        Matrix.hadamard ((mz : ℂ) • ((my : ℂ) • _y_matrix)) _z_matrix))
  { tensor := unitary, name := none }

/-- The spec's literal description of `rgate` (spec-side definition, to be
compared with `rgate`): three uniform angles `theta, alpha, phi ∈ [0, 2π)`,
`theta` scaled by `angle_scale`, and the matrix exponential of
`-i * theta * (mx·X + my·Y·mz·Z)` — the Y and Z terms multiplied (the
elementwise product denoted by the source's `*`) rather than added — wrapped
as an unnamed node. -/
noncomputable def rgate_claimed (u1 u2 u3 : ℝ) (angle_scale : ℝ) : TNNode :=
  let theta := (u1 * (2 * Real.pi)) * angle_scale
  let alpha := u2 * (2 * Real.pi)
  let phi := u3 * (2 * Real.pi)
  let mx := Real.sin alpha * Real.cos phi
  let my := Real.sin alpha * Real.sin phi
  let mz := Real.cos alpha
  { tensor := NormedSpace.exp ℂ
      ((-Complex.I * (theta : ℂ)) •
        ((mx : ℂ) • _x_matrix +
          Matrix.hadamard ((my : ℂ) • _y_matrix) ((mz : ℂ) • _z_matrix))),
    name := none }

/-- A store of array objects, indexed by address: the heap model used to state
the aliasing claims.  `cells` holds the current contents of every allocated
array. -/
structure Store (M : Type) : Type where
  cells : List M

/-- Read the array stored at address `a`. -/
def Store.read {M : Type} [Inhabited M] (st : Store M) (a : ℕ) : M :=
  st.cells.getD a default

/-- Allocate a fresh array with contents `m`, returning the new store and the
fresh address. -/
def Store.alloc {M : Type} (st : Store M) (m : M) : Store M × ℕ :=
  ({ cells := st.cells ++ [m] }, st.cells.length)

/-- Mutate in place the array stored at address `a`. -/
def Store.write {M : Type} (st : Store M) (a : ℕ) (m : M) : Store M :=
  { cells := st.cells.set a m }

/-- A `tensornetwork` node in the heap model: the address of the array it
wraps, plus its name. -/
structure HeapNode : Type where
  addr : ℕ
  name : String

/-- Function `template(m, n)` (`gates.py` lines 56-57): `tn.Node(deepcopy(m), name=n)`,
in the heap model.  `m_addr` is the address of the gate-table matrix `m`;
`deepcopy` reads its contents and allocates fresh, independent storage for the
copy, and the node points at the copy. -/
def template {M : Type} [Inhabited M] (st : Store M) (m_addr : ℕ) (n : String) :
    Store M × HeapNode :=
  let copied := st.read m_addr
  let p := st.alloc copied
  (p.1, { addr := p.2, name := n })

/-- One invocation of a double-gate applier appends its own trace to the
circuit it is given and preserves the qubit count. -/
theorem generate_double_gate_trace (gates : String) (c : Circuit) (q1 q2 : ℕ)
    (t : ℝ) :
    generate_double_gate gates c q1 q2 t
      = ⟨c.nqubits, c.ops ++ doubleGateOps gates q1 q2 t⟩ := by
  unfold doubleGateOps generate_double_gate
  by_cases hx1 : gates.toList.getD 0 ' ' = 'x' <;>
  by_cases hy1 : gates.toList.getD 0 ' ' = 'y' <;>
  by_cases hx2 : gates.toList.getD 1 ' ' = 'x' <;>
  by_cases hy2 : gates.toList.getD 1 ' ' = 'y' <;>
    simp_all [Circuit.H, Circuit.rx, Circuit.rz, Circuit.CNOT, Circuit.applyFixed,
      Circuit.applyRot]

/-- Folding a trace-appending step over a list appends the concatenation of
the per-element traces. -/
theorem foldl_trace_append {β : Type} (step : Circuit → β → Circuit)
    (g : β → List Op) (h : ∀ c e, step c e = ⟨c.nqubits, c.ops ++ g e⟩) :
    ∀ (l : List β) (c : Circuit), l.foldl step c = ⟨c.nqubits, c.ops ++ l.flatMap g⟩ := by
  intro l
  induction l with
  | nil => intro c; simp
  | cons e tl ih => intro c; simp [h, ih, List.append_assoc]

/-- C1: for every ordered pair of basis labels in `{x, y, z} × {x, y, z}`, the
generated double-gate applier performs exactly: basis change on `qubit1`
(Hadamard for `x`, `rx(-π/2)` for `y`, nothing for `z`), basis change on
`qubit2` likewise, CNOT from `qubit1` to `qubit2`, `rz` by the given angle on
`qubit2`, the same CNOT again, then the inverse basis change on `qubit1`
(Hadamard for `x`, `rx(+π/2)` for `y`) followed by the inverse basis change on
`qubit2` — and it returns the same circuit handle (qubit count unchanged, the
new operations appended in place). -/
theorem double_gate_sequence (d1 d2 : Char) (h1 : d1 ∈ ['x', 'y', 'z'])
    (h2 : d2 ∈ ['x', 'y', 'z']) (c : Circuit) (q1 q2 : ℕ) (t : ℝ) :
    (generate_double_gate (String.mk [d1, d2]) c q1 q2 t).nqubits = c.nqubits ∧
    (generate_double_gate (String.mk [d1, d2]) c q1 q2 t).ops
      = c.ops ++ specBasisChange d1 q1 ++ specBasisChange d2 q2
          ++ [Op.cnot q1 q2, Op.rot "rz" q2 t, Op.cnot q1 q2]
          ++ specBasisChangeInv d1 q1 ++ specBasisChangeInv d2 q2 := by
  fin_cases h1 <;> fin_cases h2 <;>
    exact ⟨by simp [generate_double_gate, Circuit.H, Circuit.rx, Circuit.rz,
        Circuit.CNOT, Circuit.applyFixed, Circuit.applyRot],
      by simp [generate_double_gate, specBasisChange, specBasisChangeInv,
        Circuit.H, Circuit.rx, Circuit.rz, Circuit.CNOT, Circuit.applyFixed,
        Circuit.applyRot]⟩

/-- Witness for C1 at the concrete pair `("x", "y")` on a fresh 2-qubit
circuit. -/
theorem double_gate_sequence_witness :
    ('x' ∈ ['x', 'y', 'z'] ∧ 'y' ∈ ['x', 'y', 'z']) ∧
    ((generate_double_gate (String.mk ['x', 'y']) ⟨2, []⟩ 0 1 0).nqubits = 2 ∧
      (generate_double_gate (String.mk ['x', 'y']) ⟨2, []⟩ 0 1 0).ops
        = [] ++ specBasisChange 'x' 0 ++ specBasisChange 'y' 1
            ++ [Op.cnot 0 1, Op.rot "rz" 1 0, Op.cnot 0 1]
            ++ specBasisChangeInv 'x' 0 ++ specBasisChangeInv 'y' 1) :=
  ⟨⟨by decide, by decide⟩,
    double_gate_sequence 'x' 'y' (by decide) (by decide) ⟨2, []⟩ 0 1 0⟩

/-- C10 counterexample: constructing the double-gate applier for the label
pair `"ab"` — both labels outside `{x, y, z}` — does not fail: it silently
yields an applier that performs no basis change at all (only the
CNOT–rz–CNOT core), indistinguishable from the `"zz"` applier. -/
theorem double_gate_unknown_label_counterexample :
    (generate_double_gate "ab" ⟨2, []⟩ 0 1 5).ops
        = [Op.cnot 0 1, Op.rot "rz" 1 5, Op.cnot 0 1]
      ∧ generate_double_gate "ab" ⟨2, []⟩ 0 1 5
        = generate_double_gate "zz" ⟨2, []⟩ 0 1 5 :=
  ⟨rfl, rfl⟩

/-- C10 amended: constructing a double-gate applier for basis labels outside
the supported set `{x, y, z}` succeeds without any error, and the resulting
applier performs no basis change for such a label — it applies only the
CNOT, `rz`, CNOT core, exactly as for the label `z`. -/
theorem double_gate_unknown_label_silent (d1 d2 : Char) (h1 : d1 ∉ ['x', 'y'])
    (h2 : d2 ∉ ['x', 'y']) (c : Circuit) (q1 q2 : ℕ) (t : ℝ) :
    generate_double_gate (String.mk [d1, d2]) c q1 q2 t
      = ⟨c.nqubits, c.ops ++ [Op.cnot q1 q2, Op.rot "rz" q2 t, Op.cnot q1 q2]⟩ := by
  simp only [List.mem_cons, List.not_mem_nil, or_false, not_or] at h1 h2
  simp [generate_double_gate, Circuit.rz, Circuit.CNOT, Circuit.applyRot,
    h1.1, h1.2, h2.1, h2.2]

/-- Witness for the amended C10 at the concrete labels `'a'`, `'b'`. -/
theorem double_gate_unknown_label_silent_witness :
    ('a' ∉ ['x', 'y'] ∧ 'b' ∉ ['x', 'y']) ∧
    generate_double_gate (String.mk ['a', 'b']) ⟨2, []⟩ 0 1 7
      = ⟨2, [] ++ [Op.cnot 0 1, Op.rot "rz" 1 7, Op.cnot 0 1]⟩ :=
  ⟨⟨by decide, by decide⟩,
    double_gate_unknown_label_silent 'a' 'b' (by decide) (by decide) ⟨2, []⟩ 0 1 7⟩

/-- C2: for every two-qubit layer: (1) with an explicit graph, the layer
invokes the double-gate applier exactly once per edge `(u, v)`, in edge order,
with angle `-symbol * weight(u, v) * 2` where a missing weight attribute
defaults to `1.0`, and preserves the qubit count; (2) with no graph, it
behaves exactly as on the complete graph over all the circuit's qubit
indices; (3) on a graph with no edges it applies zero gates and returns the
circuit unchanged; (4) on the default (complete) graph of a 3-qubit circuit
with `symbol = 1` and default weights, exactly 3 invocations occur, one per
edge `(0,1), (0,2), (1,2)`, each with angle `-2`. -/
theorem double_gate_layer_spec :
    (∀ (gates : String) (c : Circuit) (symbol : ℝ) (gr : Graph),
      generate_double_gate_layer gates c symbol (some gr)
        = ⟨c.nqubits,
            c.ops ++ gr.edges.flatMap fun e =>
              doubleGateOps gates e.1 e.2
                (-symbol * ((gr.weight e.1 e.2).getD 1) * 2)⟩)
    ∧ (∀ (gates : String) (c : Circuit) (symbol : ℝ),
      generate_double_gate_layer gates c symbol none
        = generate_double_gate_layer gates c symbol (some (complete_graph c.nqubits)))
    ∧ (∀ (gates : String) (c : Circuit) (symbol : ℝ) (gr : Graph),
      gr.edges = [] → generate_double_gate_layer gates c symbol (some gr) = c)
    ∧ ((generate_double_gate_layer "zz" ⟨3, []⟩ 1 none).ops
        = doubleGateOps "zz" 0 1 (-2) ++ doubleGateOps "zz" 0 2 (-2)
            ++ doubleGateOps "zz" 1 2 (-2))
    ∧ ((generate_double_gate_layer "zz" ⟨3, []⟩ 1 none).ops
        = [Op.cnot 0 1, Op.rot "rz" 1 (-2), Op.cnot 0 1,
           Op.cnot 0 2, Op.rot "rz" 2 (-2), Op.cnot 0 2,
           Op.cnot 1 2, Op.rot "rz" 2 (-2), Op.cnot 1 2]) := by
  have hmain : ∀ (gates : String) (c : Circuit) (symbol : ℝ) (gr : Graph),
      generate_double_gate_layer gates c symbol (some gr)
        = ⟨c.nqubits,
            c.ops ++ gr.edges.flatMap fun e =>
              doubleGateOps gates e.1 e.2
                (-symbol * ((gr.weight e.1 e.2).getD 1) * 2)⟩ := by
    intro gates c symbol gr
    dsimp only [generate_double_gate_layer]
    refine foldl_trace_append _ _ ?_ gr.edges c
    intro c' e
    exact generate_double_gate_trace gates c' e.1 e.2 _
  have hconc : (generate_double_gate_layer "zz" ⟨3, []⟩ 1 none).ops
      = doubleGateOps "zz" 0 1 (-2) ++ doubleGateOps "zz" 0 2 (-2)
          ++ doubleGateOps "zz" 1 2 (-2) := by
    have h3 : generate_double_gate_layer "zz" ⟨3, []⟩ 1 none
        = generate_double_gate_layer "zz" ⟨3, []⟩ 1 (some (complete_graph 3)) := rfl
    rw [h3, hmain]
    have hedges : (complete_graph 3).edges = [(0, 1), (0, 2), (1, 2)] := by decide
    have hw : ∀ u v : ℕ, (((complete_graph 3).weight u v).getD 1 : ℝ) = 1 := by
      intro u v; rfl
    simp [hedges, hw]
  refine ⟨hmain, fun gates c symbol => rfl, ?_, hconc, ?_⟩
  · intro gates c symbol gr hgr
    rw [hmain, hgr]
    simp
  · rw [hconc]
    have : ∀ q1 q2 : ℕ, doubleGateOps "zz" q1 q2 (-2)
        = [Op.cnot q1 q2, Op.rot "rz" q2 (-2), Op.cnot q1 q2] := fun q1 q2 => rfl
    simp [this]

/-- Folding a step that appends exactly one operation per element appends the
map of the per-element operations. -/
theorem foldl_trace_append_map {β : Type} (step : Circuit → β → Circuit)
    (g : β → Op) (h : ∀ c e, step c e = ⟨c.nqubits, c.ops ++ [g e]⟩) :
    ∀ (l : List β) (c : Circuit), l.foldl step c = ⟨c.nqubits, c.ops ++ l.map g⟩ := by
  intro l
  induction l with
  | nil => intro c; simp
  | cons e tl ih => intro c; simp [h, ih, List.append_assoc]

/-- C5: a generated single-qubit layer applies its gate once to every qubit
index `0..nqubits-1` — with no rotation parameter when the gate name denotes a
fixed gate (its lowercased name is in `Circuit.sgates`), and with rotation
angle `2 * symbol` otherwise — returning the same circuit handle (qubit count
unchanged, operations appended in place).  In particular the `"H"` layer on a
3-qubit circuit applies exactly 3 Hadamards on qubits 0, 1, 2, and the `"rz"`
layer applies `rz` with angle `2 * symbol` to each qubit. -/
theorem gate_layer_spec :
    (∀ (gate : String) (c : Circuit) (symbol : ℝ),
      pyLower gate ∈ Circuit.sgates →
        generate_gate_layer gate c symbol
          = ⟨c.nqubits, c.ops ++ (List.range c.nqubits).map fun n => Op.fixed gate n⟩)
    ∧ (∀ (gate : String) (c : Circuit) (symbol : ℝ),
      pyLower gate ∉ Circuit.sgates →
        generate_gate_layer gate c symbol
          = ⟨c.nqubits,
              c.ops ++ (List.range c.nqubits).map fun n => Op.rot gate n (2 * symbol)⟩)
    ∧ ((generate_gate_layer "H" ⟨3, []⟩ 0).ops
        = [Op.fixed "H" 0, Op.fixed "H" 1, Op.fixed "H" 2])
    ∧ ((generate_gate_layer "rz" ⟨2, []⟩ 5).ops
        = [Op.rot "rz" 0 (2 * 5), Op.rot "rz" 1 (2 * 5)]) := by
  have hfix : ∀ (gate : String) (c : Circuit) (symbol : ℝ),
      pyLower gate ∈ Circuit.sgates →
        generate_gate_layer gate c symbol
          = ⟨c.nqubits, c.ops ++ (List.range c.nqubits).map fun n => Op.fixed gate n⟩ := by
    intro gate c symbol h
    unfold generate_gate_layer
    rw [if_pos h]
    refine foldl_trace_append_map _ _ ?_ (List.range c.nqubits) c
    intro c' n
    rfl
  have hrot : ∀ (gate : String) (c : Circuit) (symbol : ℝ),
      pyLower gate ∉ Circuit.sgates →
        generate_gate_layer gate c symbol
          = ⟨c.nqubits,
              c.ops ++ (List.range c.nqubits).map fun n => Op.rot gate n (2 * symbol)⟩ := by
    intro gate c symbol h
    unfold generate_gate_layer
    rw [if_neg h]
    refine foldl_trace_append_map _ _ ?_ (List.range c.nqubits) c
    intro c' n
    rfl
  refine ⟨hfix, hrot, ?_, ?_⟩
  · rw [hfix "H" ⟨3, []⟩ 0 (by decide)]
    rfl
  · rw [hrot "rz" ⟨2, []⟩ 5 (by decide)]
    rfl

/-- Witness for C5: the fixed branch at the concrete gate `"H"` on a fresh
3-qubit circuit. -/
theorem gate_layer_spec_witness :
    (pyLower "H" ∈ Circuit.sgates) ∧
    generate_gate_layer "H" ⟨3, []⟩ 0
      = ⟨3, [] ++ (List.range 3).map fun n => Op.fixed "H" n⟩ :=
  ⟨by decide, gate_layer_spec.1 "H" ⟨3, []⟩ 0 (by decide)⟩

/-- C6: for every generated single-qubit layer (the generator is instantiated
for `"rx"`, `"ry"`, `"rz"`, `"H"`), the attached `__trainable__` flag is
`false` exactly when the layer applies its gate without a rotation parameter
(i.e. the lowercased gate name is a fixed gate); in particular the `"H"` layer
is non-trainable and the `"rx"`, `"ry"`, `"rz"` layers are trainable. -/
theorem gate_layer_trainable_iff (gate : String)
    (h : gate ∈ ["rx", "ry", "rz", "H"]) :
    (generate_gate_layer_trainable gate = false ↔ pyLower gate ∈ Circuit.sgates)
    ∧ generate_gate_layer_trainable "H" = false
    ∧ generate_gate_layer_trainable "rx" = true
    ∧ generate_gate_layer_trainable "ry" = true
    ∧ generate_gate_layer_trainable "rz" = true := by
  fin_cases h <;> exact ⟨by decide, rfl, rfl, rfl, rfl⟩

/-- Witness for C6 at the concrete gate name `"H"`. -/
theorem gate_layer_trainable_iff_witness :
    ("H" ∈ ["rx", "ry", "rz", "H"]) ∧
    ((generate_gate_layer_trainable "H" = false ↔ pyLower "H" ∈ Circuit.sgates)
      ∧ generate_gate_layer_trainable "H" = false
      ∧ generate_gate_layer_trainable "rx" = true
      ∧ generate_gate_layer_trainable "ry" = true
      ∧ generate_gate_layer_trainable "rz" = true) :=
  ⟨by decide, gate_layer_trainable_iff "H" (by decide)⟩

/-- C7: calling the default-layer setter with no argument resets the
process-wide default layer list to exactly the 4 entries Hadamard layer,
X-rotation layer, Z-rotation layer, ZZ-interaction layer, in that order; and
the getter returns exactly the list installed by the most recent setter
call. -/
theorem set_choice_default_spec :
    set_choice none = ["Hlayer", "rxlayer", "rzlayer", "zzlayer"]
    ∧ (set_choice none).length = 4
    ∧ (∀ l : Option (List String), get_choice (set_choice l) = set_choice l) :=
  ⟨rfl, rfl, fun _ => rfl⟩

/-- C8 counterexample: supplying the empty list does not install it verbatim —
the empty list is falsy in Python, so `set_choice([])` resets the global list
to the 4 default layers instead, and the getter does not return `[]`. -/
theorem set_choice_empty_counterexample :
    get_choice (set_choice (some [])) ≠ []
    ∧ set_choice (some []) = ["Hlayer", "rxlayer", "rzlayer", "zzlayer"] :=
  ⟨by decide, rfl⟩

/-- C8 amended: for every non-empty list supplied by the caller, the setter
replaces the process-wide default layer set with exactly that list verbatim,
with no validation, and the getter subsequently returns it; the empty list is
falsy and instead triggers the reset to the default 4 layers. -/
theorem set_choice_nonempty_verbatim (l : List String) (h : l ≠ []) :
    set_choice (some l) = l ∧ get_choice (set_choice (some l)) = l := by
  cases l with
  | nil => exact absurd rfl h
  | cons x xs => exact ⟨rfl, rfl⟩

/-- Witness for the amended C8 at a concrete one-element list. -/
theorem set_choice_nonempty_verbatim_witness :
    (["mylayer"] : List String) ≠ []
    ∧ (set_choice (some ["mylayer"]) = ["mylayer"]
        ∧ get_choice (set_choice (some ["mylayer"])) = ["mylayer"]) :=
  ⟨by decide, set_choice_nonempty_verbatim ["mylayer"] (by decide)⟩

/-- C4 counterexample: the seed value `0` is supplied but, being falsy in
Python, does not seed the global random source: from an arbitrary prior state
the state after the seeding phase of `rgate` is unchanged rather than
deterministically seeded with `0`, and likewise for `random_two_qubit_gate`. -/
theorem seed_zero_counterexample :
    rgate_seed_step (some 0) (NpRandomState.arbitrary 1) ≠ NpRandomState.seededWith 0
    ∧ rgate_seed_step (some 0) (NpRandomState.arbitrary 1) = NpRandomState.arbitrary 1
    ∧ random_two_qubit_gate_seed_step (some 0) (NpRandomState.arbitrary 1)
        = NpRandomState.arbitrary 1 :=
  ⟨by decide, by decide, by decide⟩

/-- C4 amended: for every supplied nonzero seed value, both `rgate` and
`random_two_qubit_gate` deterministically seed the process-wide global random
source with that value before any random draw is made; the seed `0`, being
falsy, is treated like an absent seed and leaves the global state untouched. -/
theorem seed_nonzero_seeds (s : ℤ) (h : s ≠ 0) (st : NpRandomState) :
    rgate_seed_step (some s) st = NpRandomState.seededWith s
    ∧ random_two_qubit_gate_seed_step (some s) st = NpRandomState.seededWith s := by
  constructor <;>
    simp [rgate_seed_step, random_two_qubit_gate_seed_step, np_random_seed, h]

/-- Witness for the amended C4 at the concrete seed `42`. -/
theorem seed_nonzero_seeds_witness :
    (42 : ℤ) ≠ 0
    ∧ (rgate_seed_step (some 42) (NpRandomState.arbitrary 0)
          = NpRandomState.seededWith 42
        ∧ random_two_qubit_gate_seed_step (some 42) (NpRandomState.arbitrary 0)
          = NpRandomState.seededWith 42) :=
  ⟨by decide, seed_nonzero_seeds 42 (by decide) (NpRandomState.arbitrary 0)⟩

/-- Witness for C2: its third conjunct applied to a concrete empty graph —
the layer leaves a concrete 2-qubit circuit unchanged. -/
theorem double_gate_layer_spec_witness :
    generate_double_gate_layer "xx" ⟨2, [Op.fixed "H" 0]⟩ 3
        (some { edges := [], weight := fun _ _ => none })
      = ⟨2, [Op.fixed "H" 0]⟩ :=
  double_gate_layer_spec.2.2.1 "xx" ⟨2, [Op.fixed "H" 0]⟩ 3
    { edges := [], weight := fun _ _ => none } rfl

/-- C3: `rgate` draws three uniforms, maps them to angles `theta, alpha, phi ∈
[0, 2π)`, forms `mx = sin(alpha)cos(phi)`, `my = sin(alpha)sin(phi)`,
`mz = cos(alpha)`, scales `theta` by `angle_scale`, and returns an unnamed
node wrapping the matrix exponential of
`-i·theta·(mx·X + my·Y·mz·Z)` — with the Y and Z terms multiplied (the
elementwise product that the source's `*` denotes) rather than added, exactly
as the spec literally states the generator expression. -/
theorem rgate_matches_claim :
    (∀ u1 u2 u3 s : ℝ, rgate u1 u2 u3 s = rgate_claimed u1 u2 u3 s)
    ∧ (∀ u1 u2 u3 s : ℝ, (rgate u1 u2 u3 s).name = none)
    ∧ (∀ u : ℝ, 0 ≤ u → u < 1 → u * (2 * Real.pi) ∈ Set.Ico 0 (2 * Real.pi)) := by
  refine ⟨?_, fun u1 u2 u3 s => rfl, ?_⟩
  · intro u1 u2 u3 s
    unfold rgate rgate_claimed
    simp only [Matrix.smul_hadamard, Matrix.hadamard_smul, smul_smul, mul_comm]
  · intro u h0 h1
    rw [Set.mem_Ico]
    constructor
    · exact mul_nonneg h0 (by positivity)
    · exact mul_lt_of_lt_one_left (by positivity) h1

/-- Witness for C3: its third conjunct at the concrete draw `u = 0`. -/
theorem rgate_matches_claim_witness :
    (0 : ℝ) ≤ 0 ∧ (0 : ℝ) < 1
    ∧ (0 : ℝ) * (2 * Real.pi) ∈ Set.Ico 0 (2 * Real.pi) :=
  ⟨le_refl 0, one_pos, rgate_matches_claim.2.2 0 (le_refl 0) one_pos⟩

/-- Reading `getD` on an append, inside the left part. -/
theorem getD_append_of_lt {M : Type} [Inhabited M] (l l' : List M) (a : ℕ)
    (h : a < l.length) : (l ++ l').getD a default = l.getD a default := by
  simp [List.getD_eq_getElem?_getD, List.getElem?_append, h]

/-- Reading `getD` on an append, at the first appended cell. -/
theorem getD_append_self {M : Type} [Inhabited M] (l : List M) (x : M)
    (l' : List M) : (l ++ x :: l').getD l.length default = x := by
  rw [List.getD_eq_getElem?_getD, List.getElem?_append_right (Nat.le_refl l.length)]
  simp

/-- Reading `getD` after `set` at a different index. -/
theorem getD_set_of_ne {M : Type} [Inhabited M] (l : List M) (i j : ℕ) (v : M)
    (h : i ≠ j) : (l.set i v).getD j default = l.getD j default := by
  simp [List.getD_eq_getElem?_getD, List.getElem?_set_ne h]

/-- C9: every call to the fixed-gate node constructor returns a node wrapping
an independent deep copy of the gate-table matrix: the first call allocates a
fresh cell holding a copy of the table cell's contents, a second call
allocates another fresh cell, the node addresses differ from the table address
and from each other, the table cells are never modified, all copies hold equal
contents, and mutating one node's copy changes neither the other node's copy
nor the table cell. -/
theorem template_deepcopy_independent {M : Type} [Inhabited M] (st : Store M)
    (addr : ℕ) (n1 n2 : String) (h : addr < st.cells.length) :
    template st addr n1
        = (⟨st.cells ++ [st.read addr]⟩, ⟨st.cells.length, n1⟩)
    ∧ template (⟨st.cells ++ [st.read addr]⟩ : Store M) addr n2
        = (⟨st.cells ++ [st.read addr] ++ [st.read addr]⟩, ⟨st.cells.length + 1, n2⟩)
    ∧ st.cells.length ≠ addr
    ∧ st.cells.length + 1 ≠ addr
    ∧ st.cells.length ≠ st.cells.length + 1
    ∧ (st.cells ++ [st.read addr] ++ [st.read addr]).take st.cells.length = st.cells
    ∧ Store.read ⟨st.cells ++ [st.read addr] ++ [st.read addr]⟩ addr = st.read addr
    ∧ Store.read ⟨st.cells ++ [st.read addr] ++ [st.read addr]⟩ st.cells.length
        = st.read addr
    ∧ Store.read ⟨st.cells ++ [st.read addr] ++ [st.read addr]⟩ (st.cells.length + 1)
        = st.read addr
    ∧ ∀ v : M,
        Store.read
            (Store.write ⟨st.cells ++ [st.read addr] ++ [st.read addr]⟩
              st.cells.length v) (st.cells.length + 1)
          = st.read addr
        ∧ Store.read
            (Store.write ⟨st.cells ++ [st.read addr] ++ [st.read addr]⟩
              st.cells.length v) addr
          = st.read addr := by
  have ecopy : Store.read (⟨st.cells ++ [st.read addr]⟩ : Store M) addr
      = st.read addr := getD_append_of_lt _ _ _ h
  have eread1 : Store.read ⟨st.cells ++ [st.read addr] ++ [st.read addr]⟩ addr
      = st.read addr := by
    show ((st.cells ++ [st.read addr]) ++ [st.read addr]).getD addr default
      = st.cells.getD addr default
    rw [List.append_assoc]
    exact getD_append_of_lt _ _ _ h
  have eread2 : Store.read ⟨st.cells ++ [st.read addr] ++ [st.read addr]⟩
      st.cells.length = st.read addr := by
    show ((st.cells ++ [st.read addr]) ++ [st.read addr]).getD st.cells.length default
      = st.read addr
    rw [List.append_assoc]
    exact getD_append_self _ _ _
  have elen : (st.cells ++ [st.read addr]).length = st.cells.length + 1 := by simp
  have eread3 : Store.read ⟨st.cells ++ [st.read addr] ++ [st.read addr]⟩
      (st.cells.length + 1) = st.read addr := by
    show ((st.cells ++ [st.read addr]) ++ [st.read addr]).getD
        (st.cells.length + 1) default = st.read addr
    rw [← elen]
    exact getD_append_self _ _ _
  refine ⟨rfl, ?_, by omega, by omega, by omega, ?_, eread1, eread2, eread3, ?_⟩
  · show ((⟨(st.cells ++ [st.read addr])
        ++ [Store.read (⟨st.cells ++ [st.read addr]⟩ : Store M) addr]⟩ : Store M),
      ({ addr := (st.cells ++ [st.read addr]).length, name := n2 } : HeapNode)) = _
    rw [ecopy, elen]
  · rw [List.append_assoc]
    exact List.take_left _ _
  · intro v
    constructor
    · show ((st.cells ++ [st.read addr] ++ [st.read addr]).set st.cells.length v).getD
        (st.cells.length + 1) default = st.read addr
      rw [getD_set_of_ne _ _ _ _ (by omega)]
      exact eread3
    · show ((st.cells ++ [st.read addr] ++ [st.read addr]).set st.cells.length v).getD
        addr default = st.read addr
      rw [getD_set_of_ne _ _ _ _ (by omega)]
      exact eread1

/-- Witness for C9: the first conjunct at a concrete one-cell store of
naturals. -/
theorem template_deepcopy_independent_witness :
    0 < (⟨[7]⟩ : Store ℕ).cells.length
    ∧ template (⟨[7]⟩ : Store ℕ) 0 "a" = (⟨[7, 7]⟩, ⟨1, "a"⟩) :=
  ⟨by decide, (template_deepcopy_independent (⟨[7]⟩ : Store ℕ) 0 "a" "b" (by decide)).1⟩
